import Mathlib

/-!
Verification of the microphone keyword-listener core (`src/keyword_listener.py`).

Shallow embedding of the pure decision logic of the listener pipeline:
silence gating (`_rms` and the RMS threshold test in `main`), buffer sizing
(`record_buffer`), the remote→local transcription fallback policy in `main`,
text normalization (`normalize_text`), keyword matching (`contains_keyword`),
and the debounce/cooldown state update in `main`.

Python strings are modelled as `List Char` over the ASCII fragment of
Python's `str` semantics (`str.casefold`, `\w`, `\s`); audio samples are
modelled as exact rationals, with NumPy's NaN made explicit where the code
can produce it (mean of an empty array).
-/

namespace KeywordListener

/-! Character classes: ASCII fragment of Python's `re` classes. -/

/-- Python regex `\w` (word character), ASCII fragment: alphanumeric or underscore. -/
def isWordChar (c : Char) : Bool := c.isAlphanum || c = '_'

/-- Python regex `\s` (whitespace), ASCII fragment: space, tab, newline,
carriage return, vertical tab, form feed. -/
def isSpaceChar (c : Char) : Bool :=
  c = ' ' || c = '\t' || c = '\n' || c = '\r' || c = '\x0b' || c = '\x0c'

/-- Python `str.casefold`, ASCII fragment: map an uppercase ASCII letter to
its lowercase counterpart, leave every other character unchanged. -/
def casefoldChar (c : Char) : Char :=
  if c.isUpper then Char.ofNat (c.toNat + 32) else c

/-- Python `str.casefold` applied to a whole string. -/
def casefoldStr (s : List Char) : List Char := s.map casefoldChar

/-! Embedding of `normalize_text` (lines 89–95). -/

/-- One character of the substitution `re.sub(r"[^\w\s]", " ", s)`:
a character that is neither a word character nor whitespace becomes a
single space; word characters and whitespace are kept. -/
def punctToSpace (c : Char) : Char :=
  if isWordChar c || isSpaceChar c then c else ' '

/-- The substitution `re.sub(r"\s+", " ", s)`: replace every maximal run of whitespace
characters by one single space `' '`. -/
def collapseSpaces : List Char → List Char
  | [] => []
  | [c] => if isSpaceChar c then [' '] else [c]
  | c :: d :: rest =>
    if isSpaceChar c && isSpaceChar d then collapseSpaces (d :: rest)
    else (if isSpaceChar c then ' ' else c) :: collapseSpaces (d :: rest)

/-- Python `str.strip()`: drop whitespace characters from both ends. -/
def stripStr (s : List Char) : List Char :=
  ((s.dropWhile isSpaceChar).reverse.dropWhile isSpaceChar).reverse

/-- Function `normalize_text` (lines 89–95): casefold, replace each character that is
neither a word character nor whitespace by a space, collapse whitespace runs
to single spaces, and strip the ends. -/
def normalize_text (s : List Char) : List Char :=
  stripStr (collapseSpaces ((casefoldStr s).map punctToSpace))

/-- The reference normalization of spec §4.5, following its words: case-fold,
replace every character that is neither alphanumeric nor whitespace with a
single space, then collapse runs of whitespace to one space and trim the
ends. -/
def normalizeSpecRef (s : List Char) : List Char :=
  stripStr (collapseSpaces ((casefoldStr s).map fun c =>
    if ¬(c.isAlphanum = true) ∧ ¬(isSpaceChar c = true) then ' ' else c))

/-- The spec §4.5 reference normalization amended to the code's character
class: a character is kept when it is a word character (alphanumeric or
underscore) or whitespace, and replaced by a single space otherwise. -/
def normalizeSpecRefAmended (s : List Char) : List Char :=
  stripStr (collapseSpaces ((casefoldStr s).map fun c =>
    if ¬(c.isAlphanum = true ∨ c = '_') ∧ ¬(isSpaceChar c = true) then ' ' else c))

/-! Embedding of `contains_keyword` (lines 98–103). -/

/-- Function `contains_keyword` (lines 98–103): normalize the text, then scan the
keywords in order and report whether some keyword is truthy (non-empty) and
its casefold occurs as a contiguous substring (Python `in`) of the
normalized text. -/
def contains_keyword (text : List Char) (keywords : List (List Char)) : Bool :=
  let norm := normalize_text text
  keywords.any fun kw => !kw.isEmpty && decide (casefoldStr kw <:+: norm)

/-! Embedding of `_rms` (lines 41–42) and the silence gate (lines 138–139).

`np.mean(np.square(audio))` of an empty array is NaN (NumPy emits a runtime
warning and returns NaN, it does not raise), `np.sqrt` of NaN is NaN, and
every IEEE comparison against NaN is false.  The NaN case is made explicit
with the `NpF` type; on a non-empty buffer the mean of squares is a
non-negative rational, on which `np.sqrt` agrees with `Real.sqrt`. -/

/-- A NumPy float64 result: NaN or a real value. -/
inductive NpF where
  | nan : NpF
  | val : ℝ → NpF

/-- Mean of the squared samples, `np.mean(np.square(audio))`:
NaN on an empty buffer, otherwise the exact mean. -/
def npMeanSq (audio : List ℚ) : NpF :=
  if audio.isEmpty then NpF.nan
  else NpF.val (((audio.map fun x => x * x).sum / audio.length : ℚ) : ℝ)

/-- NumPy `np.sqrt` on a value that is NaN or non-negative (the argument
here is a mean of squares, so the negative-argument NaN case of `np.sqrt`
cannot arise). -/
noncomputable def npSqrt : NpF → NpF
  | NpF.nan => NpF.nan
  | NpF.val x => NpF.val (Real.sqrt x)

/-- Function `_rms` (lines 41–42): `sqrt(mean(square(audio)))`. -/
noncomputable def rms (audio : List ℚ) : NpF := npSqrt (npMeanSq audio)

/-- IEEE `<` against a real threshold: false when the left side is NaN. -/
def npLt : NpF → ℝ → Prop
  | NpF.nan, _ => False
  | NpF.val x, t => x < t

/-- The silence gate in `main` (lines 138–139): the cycle skips the buffer
(`continue`) exactly when `_rms(audio) < SILENCE_THRESHOLD`. -/
noncomputable def silenceGateSkips (audio : List ℚ) (threshold : ℝ) : Prop :=
  npLt (rms audio) threshold

/-! Embedding of `record_buffer` (lines 45–49). -/

/-- Python `int()` on a number: truncation toward zero. -/
def pyTrunc (q : ℚ) : ℤ := if q < 0 then ⌈q⌉ else ⌊q⌋

/-- The frame count requested by `record_buffer` (line 46):
`frames = int(seconds * SAMPLE_RATE)`. -/
def recordFrames (seconds : ℚ) (sampleRate : ℕ) : ℤ := pyTrunc (seconds * sampleRate)

/-- Function `record_buffer` (lines 45–49): capture `frames` mono samples from the
microphone stream `mic` and flatten to a one-dimensional buffer
(`audio.reshape(-1)`, with `CHANNELS = 1`). -/
def record_buffer (seconds : ℚ) (sampleRate : ℕ) (mic : ℕ → ℚ) : List ℚ :=
  (List.range (recordFrames seconds sampleRate).toNat).map mic

/-! Embedding of the remote→local transcription fallback in `main` (lines 142–159). -/

/-- The error-message substrings that `main` (line 150) treats as
"OpenAI STT unavailable": `model_not_found`, `insufficient_quota`,
`401`, `403`. -/
def serviceCodes : List (List Char) :=
  ["model_not_found".toList, "insufficient_quota".toList, "401".toList, "403".toList]

/-- Line 150: `any(code in err_msg for code in (...))` — the failure is
classified as service-unavailable when some code occurs as a substring of
the error message. -/
def serviceUnavailable (errMsg : List Char) : Bool :=
  serviceCodes.any fun code => decide (code <:+: errMsg)

/-- Outcome of one transcription engine on a buffer: the produced text, or
an error message. -/
abbrev SttResult := Except (List Char) (List Char)

/-- The transcription step of `main` (lines 142–159), with the two engines
abstracted as functions of the buffer.  Returns the surfaced outcome
together with a flag recording whether the local engine
(`transcribe_with_faster_whisper`) was invoked: in local mode the local
engine is called exclusively; otherwise the remote engine is called first
and the local engine is invoked — on the same buffer — only when the remote
failure is classified as service-unavailable, in which case the local
outcome (success or failure) is surfaced; any other remote failure is
surfaced directly. -/
def orchestrate (useLocalStt : Bool) (remoteF localF : List ℚ → SttResult)
    (audio : List ℚ) : SttResult × Bool :=
  if useLocalStt then (localF audio, true)
  else
    match remoteF audio with
    | Except.ok t => (Except.ok t, false)
    | Except.error e =>
      if serviceUnavailable e then (localF audio, true)
      else (Except.error e, false)

/-! Embedding of the debounce state in `main` (lines 132 and 167–179). -/

/-- The debouncer's state: the single mutable `last_detect_ts`. -/
structure DetectionState where
  lastDetectTs : ℚ
deriving DecidableEq

/-- Line 132: `last_detect_ts = 0.0`. -/
def initState : DetectionState := ⟨0⟩

/-- The debounce check of `main` (lines 168–172): on a candidate detection
at time `now`, if `now - last_detect_ts < COOLDOWN_SECONDS` the detection
is suppressed (`continue`) and the state is unchanged; otherwise it is
accepted and `last_detect_ts = now`. Returns (accepted?, new state). -/
def allow (cooldown : ℚ) (s : DetectionState) (now : ℚ) : Bool × DetectionState :=
  if now - s.lastDetectTs < cooldown then (false, s)
  else (true, ⟨now⟩)

/-- The detection/notification tail of `main` (lines 168–179): run the
debounce check; when it accepts, `last_detect_ts` is set to `now` first and
only then is `send_via_api` attempted, whose outcome (`sendResult`) is
caught and does not touch the state.  Returns the new state and
`some sendResult` when a send was attempted, `none` when debounced. -/
def notifyPhase (cooldown : ℚ) (s : DetectionState) (now : ℚ)
    (sendResult : Except (List Char) Unit) :
    DetectionState × Option (Except (List Char) Unit) :=
  if now - s.lastDetectTs < cooldown then (s, none)
  else (⟨now⟩, some sendResult)

/-- Two adjacent characters are not both whitespace; the invariant of the
output of `collapseSpaces` used in the idempotence proof. -/
def NoTwoSpaces (a b : Char) : Prop := ¬(isSpaceChar a = true ∧ isSpaceChar b = true)

/-! Helper lemmas. -/

theorem contains_keyword_eq_true_iff (text : List Char) (keywords : List (List Char)) :
    contains_keyword text keywords = true ↔
      ∃ kw ∈ keywords, kw ≠ [] ∧ casefoldStr kw <:+: normalize_text text := by
  simp only [contains_keyword, List.any_eq_true, Bool.and_eq_true, Bool.not_eq_true',
    List.isEmpty_eq_false, decide_eq_true_eq]

theorem char_ofNat_not_upper (n : ℕ) (h1 : 97 ≤ n) (h2 : n ≤ 122) :
    (Char.ofNat n).isUpper = false := by
  have hv : n.isValidChar := Or.inl (by omega)
  simp only [Char.ofNat, dif_pos hv, Char.isUpper, Char.ofNatAux]
  simp only [Bool.and_eq_false_iff]
  right
  simp only [decide_eq_false_iff_not]
  intro hle
  rw [UInt32.le_def, BitVec.le_def] at hle
  simp at hle
  omega

theorem casefoldChar_not_upper (c : Char) (h : c.isUpper = false) : casefoldChar c = c := by
  rw [casefoldChar, if_neg (by simp [h])]

theorem casefoldChar_idem (c : Char) : casefoldChar (casefoldChar c) = casefoldChar c := by
  by_cases h : c.isUpper = true
  · have hb : 65 ≤ c.toNat ∧ c.toNat ≤ 90 := by
      simp [Char.isUpper] at h
      exact ⟨h.1, h.2⟩
    have h32 : (Char.ofNat (c.toNat + 32)).isUpper = false :=
      char_ofNat_not_upper _ (by omega) (by omega)
    have hc : casefoldChar c = Char.ofNat (c.toNat + 32) := by
      rw [casefoldChar, if_pos h]
    rw [hc, casefoldChar_not_upper _ h32]
  · have h' : c.isUpper = false := by simpa using h
    rw [casefoldChar_not_upper c h', casefoldChar_not_upper c h']

theorem isSpaceChar_cases (c : Char) (h : isSpaceChar c = true) :
    c = ' ' ∨ c = '\t' ∨ c = '\n' ∨ c = '\r' ∨ c = '\x0b' ∨ c = '\x0c' := by
  simpa [isSpaceChar, or_assoc] using h

theorem space_not_word (c : Char) (h : isSpaceChar c = true) : isWordChar c = false := by
  rcases isSpaceChar_cases c h with rfl | rfl | rfl | rfl | rfl | rfl <;> decide

theorem mem_punct_image (s : List Char) (x : Char)
    (hx : x ∈ (casefoldStr s).map punctToSpace) :
    (isWordChar x = true ∨ isSpaceChar x = true) ∧ casefoldChar x = x := by
  obtain ⟨y, hy, rfl⟩ := List.mem_map.mp hx
  obtain ⟨c, -, rfl⟩ := List.mem_map.mp hy
  by_cases h : (isWordChar (casefoldChar c) || isSpaceChar (casefoldChar c)) = true
  · rw [punctToSpace, if_pos h]
    refine ⟨?_, casefoldChar_idem c⟩
    simpa using h
  · rw [punctToSpace, if_neg h]
    exact ⟨Or.inr (by decide), by decide⟩

theorem mem_collapseSpaces (u : List Char) (x : Char) (hx : x ∈ collapseSpaces u) :
    (x ∈ u ∧ isSpaceChar x = false) ∨ x = ' ' := by
  induction u using collapseSpaces.induct with
  | case1 => simp [collapseSpaces] at hx
  | case2 c h =>
    rw [collapseSpaces, if_pos h] at hx
    right
    simpa using hx
  | case3 c h =>
    rw [collapseSpaces, if_neg h] at hx
    left
    refine ⟨hx, ?_⟩
    rw [List.mem_singleton] at hx
    subst hx
    simpa using h
  | case4 c d rest h ih =>
    rw [collapseSpaces, if_pos h] at hx
    rcases ih hx with ⟨hm, hns⟩ | heq
    · exact Or.inl ⟨List.mem_cons_of_mem c hm, hns⟩
    · exact Or.inr heq
  | case5 c d rest h ih =>
    rw [collapseSpaces, if_neg h] at hx
    rcases List.mem_cons.mp hx with heq | htl
    · by_cases hc : isSpaceChar c = true
      · rw [if_pos hc] at heq
        exact Or.inr heq
      · rw [if_neg hc] at heq
        subst heq
        exact Or.inl ⟨List.mem_cons_self _ _, by simpa using hc⟩
    · rcases ih htl with ⟨hm, hns⟩ | heq
      · exact Or.inl ⟨List.mem_cons_of_mem c hm, hns⟩
      · exact Or.inr heq

theorem collapseSpaces_cons_of_nonspace (d : Char) (rest : List Char)
    (h : isSpaceChar d = false) :
    ∃ tl, collapseSpaces (d :: rest) = d :: tl := by
  cases rest with
  | nil => exact ⟨[], by rw [collapseSpaces, if_neg (by simp [h])]⟩
  | cons e rest' =>
    refine ⟨collapseSpaces (e :: rest'), ?_⟩
    rw [collapseSpaces, if_neg (by simp [h]), if_neg (by simp [h])]

theorem chain'_collapseSpaces (u : List Char) :
    List.Chain' NoTwoSpaces (collapseSpaces u) := by
  induction u using collapseSpaces.induct with
  | case1 => simp [collapseSpaces]
  | case2 c h =>
    rw [collapseSpaces, if_pos h]
    exact List.chain'_singleton _
  | case3 c h =>
    rw [collapseSpaces, if_neg h]
    exact List.chain'_singleton _
  | case4 c d rest h ih =>
    rw [collapseSpaces, if_pos h]
    exact ih
  | case5 c d rest h ih =>
    rw [collapseSpaces, if_neg h]
    rw [List.chain'_cons']
    refine ⟨?_, ih⟩
    intro y hy
    by_cases hc : isSpaceChar c = true
    · have hd : isSpaceChar d = false := by
        rcases Bool.and_eq_false_iff.mp (by simpa using h) with h' | h'
        · rw [hc] at h'; cases h'
        · exact h'
      obtain ⟨tl, htl⟩ := collapseSpaces_cons_of_nonspace d rest hd
      rw [htl] at hy
      simp at hy
      subst hy
      rw [if_pos hc]
      rintro ⟨-, hsy⟩
      rw [hd] at hsy
      cases hsy
    · rw [if_neg hc]
      rintro ⟨hsc, -⟩
      exact hc hsc

theorem collapseSpaces_eq_self (t : List Char)
    (hsp : ∀ x ∈ t, isSpaceChar x = true → x = ' ')
    (hch : List.Chain' NoTwoSpaces t) :
    collapseSpaces t = t := by
  induction t using collapseSpaces.induct with
  | case1 => rfl
  | case2 c h =>
    rw [collapseSpaces, if_pos h, hsp c (List.mem_singleton_self c) h]
  | case3 c h =>
    rw [collapseSpaces, if_neg h]
  | case4 c d rest h ih =>
    rw [List.chain'_cons] at hch
    rw [Bool.and_eq_true] at h
    exact absurd h hch.1
  | case5 c d rest h ih =>
    rw [collapseSpaces, if_neg h]
    have htl : collapseSpaces (d :: rest) = d :: rest :=
      ih (fun x hx hxs => hsp x (List.mem_cons_of_mem c hx) hxs) (List.chain'_cons.mp hch).2
    rw [htl]
    by_cases hc : isSpaceChar c = true
    · rw [if_pos hc, hsp c (List.mem_cons_self _ _) hc]
    · rw [if_neg hc]

theorem mem_stripStr (w : List Char) (x : Char) (hx : x ∈ stripStr w) : x ∈ w := by
  rw [stripStr] at hx
  have h1 := List.mem_reverse.mp hx
  have h2 := (List.dropWhile_suffix _).subset h1
  have h3 := List.mem_reverse.mp h2
  exact (List.dropWhile_suffix _).subset h3

theorem chain'_stripStr (w : List Char) (h : List.Chain' NoTwoSpaces w) :
    List.Chain' NoTwoSpaces (stripStr w) := by
  have symm_imp : ∀ a b : Char, NoTwoSpaces a b → NoTwoSpaces b a :=
    fun a b hab hba => hab ⟨hba.2, hba.1⟩
  have hA : List.Chain' NoTwoSpaces (w.dropWhile isSpaceChar) :=
    h.infix (List.dropWhile_suffix _).isInfix
  have hAr : List.Chain' NoTwoSpaces (w.dropWhile isSpaceChar).reverse := by
    rw [List.chain'_reverse]
    exact hA.imp symm_imp
  have hB : List.Chain' NoTwoSpaces
      ((w.dropWhile isSpaceChar).reverse.dropWhile isSpaceChar) :=
    hAr.infix (List.dropWhile_suffix _).isInfix
  rw [stripStr, List.chain'_reverse]
  exact hB.imp symm_imp

theorem stripStr_getLast?_not_space (w : List Char) (x : Char)
    (hx : (stripStr w).getLast? = some x) : isSpaceChar x = false := by
  rw [stripStr, List.getLast?_reverse] at hx
  have h := List.head?_dropWhile_not isSpaceChar (w.dropWhile isSpaceChar).reverse
  rw [hx] at h
  exact h

theorem stripStr_head?_not_space (w : List Char) (x : Char)
    (hx : (stripStr w).head? = some x) : isSpaceChar x = false := by
  rw [stripStr, List.head?_reverse] at hx
  obtain ⟨pre, hpre⟩ :=
    List.dropWhile_suffix (l := (w.dropWhile isSpaceChar).reverse) isSpaceChar
  have hA : (w.dropWhile isSpaceChar).reverse.getLast? = some x := by
    rw [← hpre, List.getLast?_append, hx]
    rfl
  rw [List.getLast?_reverse] at hA
  have h := List.head?_dropWhile_not isSpaceChar w
  rw [hA] at h
  exact h

theorem stripStr_eq_self (t : List Char)
    (hh : ∀ x, t.head? = some x → isSpaceChar x = false)
    (hl : ∀ x, t.getLast? = some x → isSpaceChar x = false) :
    stripStr t = t := by
  have h1 : t.dropWhile isSpaceChar = t := by
    cases t with
    | nil => rfl
    | cons a t' =>
      rw [List.dropWhile_cons, if_neg (by simp [hh a rfl])]
  rw [stripStr, h1]
  have h2 : t.reverse.dropWhile isSpaceChar = t.reverse := by
    cases ht : t.reverse with
    | nil => rfl
    | cons b r =>
      have hb : t.getLast? = some b := by
        rw [← List.head?_reverse, ht]
        rfl
      rw [List.dropWhile_cons, if_neg (by simp [hl b hb])]
  rw [h2, List.reverse_reverse]

theorem mem_normalize_text (s : List Char) (x : Char) (hx : x ∈ normalize_text s) :
    (isWordChar x = true ∨ x = ' ') ∧ casefoldChar x = x := by
  have hv : x ∈ collapseSpaces ((casefoldStr s).map punctToSpace) := mem_stripStr _ _ hx
  rcases mem_collapseSpaces _ _ hv with ⟨hu, hns⟩ | rfl
  · obtain ⟨hws, hcf⟩ := mem_punct_image s x hu
    rcases hws with hw | hs
    · exact ⟨Or.inl hw, hcf⟩
    · rw [hs] at hns
      cases hns
  · exact ⟨Or.inr rfl, by decide⟩

/-! Theorems for the claims. -/

/-- C1: in remote mode, when the remote engine fails with an error message
classified as service-unavailable (`model_not_found`, `insufficient_quota`,
`401`, `403` substrings), the loop invokes the local engine on the same
buffer and uses its result; on any other remote failure the failure is
surfaced for the cycle and the local engine is never invoked. -/
theorem orchestrator_remote_fallback_policy (remoteF localF : List ℚ → SttResult)
    (audio : List ℚ) (e : List Char) (hrem : remoteF audio = Except.error e) :
    (serviceUnavailable e = true →
      orchestrate false remoteF localF audio = (localF audio, true)) ∧
    (serviceUnavailable e = false →
      orchestrate false remoteF localF audio = (Except.error e, false)) := by
  constructor <;> intro h <;> simp [orchestrate, hrem, h]

/-- Witness for C1 at concrete inputs: a quota-exhaustion message triggers
the local fallback, a plain timeout message is surfaced without fallback. -/
theorem orchestrator_remote_fallback_policy_witness :
    orchestrate false (fun _ => Except.error "Error code: 401 - insufficient_quota".toList)
        (fun _ => Except.ok "chicken nugget".toList) [1]
      = (Except.ok "chicken nugget".toList, true) ∧
    orchestrate false (fun _ => Except.error "connection timeout".toList)
        (fun _ => Except.ok "chicken nugget".toList) [1]
      = (Except.error "connection timeout".toList, false) := by
  constructor
  · exact (orchestrator_remote_fallback_policy _ _ [1] _ rfl).1 (by decide)
  · exact (orchestrator_remote_fallback_policy _ _ [1] _ rfl).2 (by decide)

/-- C2 counterexample: from the initial state (`last_detect_ts = 0.0`, line
132) with cooldown 15, a detection at time 0 is debounced (`0 - 0 < 15`),
so `allow(0)` returns false — not true as the claim's trace requires. -/
theorem allow_initial_zero_counterexample : (allow 15 initState 0).1 = false := by
  norm_num [allow, initState]

/-- C2 (amended): `allow` accepts and records `lastDetectionTime = now`
exactly when `now - lastDetectionTime ≥ cooldown`, and otherwise rejects
leaving the state unchanged; there is no separate no-prior-detection state —
the initial state has `lastDetectionTime = 0`, so with cooldown 15 the trace
is `allow(0) = false`, `allow(5) = false`, `allow(16) = true`, and the state
after the third call has `lastDetectionTime = 16`. -/
theorem allow_spec_amended :
    (∀ (c : ℚ) (s : DetectionState) (now : ℚ),
      (c ≤ now - s.lastDetectTs → allow c s now = (true, ⟨now⟩)) ∧
      (now - s.lastDetectTs < c → allow c s now = (false, s))) ∧
    allow 15 initState 0 = (false, initState) ∧
    allow 15 initState 5 = (false, initState) ∧
    allow 15 initState 16 = (true, ⟨16⟩) := by
  refine ⟨fun c s now => ⟨fun h => ?_, fun h => ?_⟩, by norm_num [allow, initState],
    by norm_num [allow, initState], by norm_num [allow, initState]⟩
  · simp [allow, not_lt.mpr h]
  · simp [allow, h]

/-- Witness for C2's amended rule at concrete inputs on both sides of the
cooldown boundary. -/
theorem allow_spec_amended_witness :
    allow 15 ⟨1⟩ 20 = (true, ⟨20⟩) ∧ allow 15 ⟨1⟩ 10 = (false, ⟨1⟩) :=
  ⟨(allow_spec_amended.1 15 ⟨1⟩ 20).1 (by norm_num),
   (allow_spec_amended.1 15 ⟨1⟩ 10).2 (by norm_num)⟩

/-- C3: `contains_keyword` returns true iff some non-empty keyword occurs,
after case-folding, as a contiguous substring of the normalized text; with
the concrete instances of spec §8. -/
theorem contains_keyword_matches_spec :
    (∀ text keywords, contains_keyword text keywords = true ↔
        ∃ kw ∈ keywords, kw ≠ [] ∧ casefoldStr kw <:+: normalize_text text) ∧
    contains_keyword "Chicken NUGGET!!".toList ["chicken nugget".toList] = true ∧
    contains_keyword "chickennugget".toList ["chicken nugget".toList] = false ∧
    (∀ keywords, contains_keyword [] keywords = false) ∧
    (∀ text, contains_keyword text [] = false) := by
  refine ⟨contains_keyword_eq_true_iff, by decide, by decide, ?_, fun text => by
    simp [contains_keyword]⟩
  intro keywords
  rw [← Bool.not_eq_true, contains_keyword_eq_true_iff]
  rintro ⟨kw, -, hne, hinf⟩
  exact hne (List.map_eq_nil_iff.mp (List.infix_nil.mp hinf))

/-- C7 counterexample: `record_buffer` computes `frames = int(seconds *
SAMPLE_RATE)` (truncation), so for `seconds = 1/10000` at 16000 Hz the
buffer has 1 sample while `round(seconds × sample_rate) = round(1.6) = 2`. -/
theorem record_buffer_round_counterexample :
    (record_buffer (1/10000) 16000 fun _ => 0).length = 1 ∧
    round ((1/10000 : ℚ) * 16000) = 2 ∧ (1 : ℕ) ≠ 2 := by
  refine ⟨?_, ?_, by decide⟩
  · simp only [record_buffer, List.length_map, List.length_range, recordFrames, pyTrunc]
    norm_num
  · rw [show ((1/10000 : ℚ) * 16000) = 8/5 by norm_num, round_eq]
    norm_num

/-- C7 (amended): for every non-negative duration, the buffer returned by
`record_buffer` contains exactly `⌊duration × sample_rate⌋` samples
(truncation toward zero, which equals the floor for non-negative input),
not `round(duration × sample_rate)`. -/
theorem record_buffer_length_floor (seconds : ℚ) (sampleRate : ℕ) (mic : ℕ → ℚ)
    (h : 0 ≤ seconds) :
    ((record_buffer seconds sampleRate mic).length : ℤ) = ⌊seconds * sampleRate⌋ := by
  have h0 : (0 : ℚ) ≤ seconds * sampleRate := mul_nonneg h (by positivity)
  simp only [record_buffer, List.length_map, List.length_range, recordFrames, pyTrunc,
    if_neg (not_lt.mpr h0)]
  exact Int.toNat_of_nonneg (Int.floor_nonneg.mpr h0)

/-- Witness for C7's amended statement at the configured defaults
(4-second buffer at 16000 Hz → 64000 samples). -/
theorem record_buffer_length_floor_witness :
    ((record_buffer 4 16000 fun _ => 0).length : ℤ) = 64000 := by
  rw [record_buffer_length_floor 4 16000 (fun _ => 0) (by norm_num),
    show ((4 : ℚ) * (16000 : ℕ)) = ((64000 : ℤ) : ℚ) by norm_num, Int.floor_intCast]

/-- C9: on an accepted detection at time `now`, `last_detect_ts` is set to
`now` before `send_via_api` runs, so even when the send fails the state
afterwards records `lastDetectionTime = now` and no further detection can be
accepted until the cooldown has elapsed from the failed attempt. -/
theorem notify_failure_consumes_cooldown (cooldown : ℚ) (s : DetectionState)
    (now : ℚ) (errMsg : List Char) (hpass : cooldown ≤ now - s.lastDetectTs) :
    notifyPhase cooldown s now (Except.error errMsg)
      = (⟨now⟩, some (Except.error errMsg)) ∧
    ∀ t : ℚ, t - now < cooldown →
      allow cooldown (notifyPhase cooldown s now (Except.error errMsg)).1 t
        = (false, (notifyPhase cooldown s now (Except.error errMsg)).1) := by
  have hn : notifyPhase cooldown s now (Except.error errMsg)
      = (⟨now⟩, some (Except.error errMsg)) := by
    simp [notifyPhase, not_lt.mpr hpass]
  refine ⟨hn, fun t ht => ?_⟩
  rw [hn]
  simp [allow, ht]

/-- Witness for C9 at concrete inputs: a failed send at time 20 still moves
the timestamp to 20, and a detection at time 30 is debounced. -/
theorem notify_failure_consumes_cooldown_witness :
    notifyPhase 15 ⟨0⟩ 20 (Except.error "http 500".toList)
      = (⟨20⟩, some (Except.error "http 500".toList)) ∧
    allow 15 (notifyPhase 15 ⟨0⟩ 20 (Except.error "http 500".toList)).1 30
      = (false, (notifyPhase 15 ⟨0⟩ 20 (Except.error "http 500".toList)).1) := by
  have h := notify_failure_consumes_cooldown 15 ⟨0⟩ 20 "http 500".toList (by norm_num)
  exact ⟨h.1, h.2 30 (by norm_num)⟩

/-- Helper: the mean of squares is non-negative. -/
theorem meanSq_nonneg (audio : List ℚ) :
    0 ≤ (audio.map fun x => x * x).sum / (audio.length : ℚ) := by
  apply div_nonneg
  · refine List.sum_nonneg fun x hx => ?_
    obtain ⟨y, -, rfl⟩ := List.mem_map.mp hx
    exact mul_self_nonneg y
  · exact Nat.cast_nonneg _

/-- Helper: on a non-empty buffer `_rms` is the real square root of the
mean of squares. -/
theorem rms_nonempty_eq (audio : List ℚ) (hne : audio ≠ []) :
    rms audio
      = NpF.val (Real.sqrt (((audio.map fun x => x * x).sum / audio.length : ℚ) : ℝ)) := by
  rw [rms, npMeanSq, if_neg (by simpa using hne), npSqrt]

/-- C6: a non-empty buffer has a well-defined RMS value `r`, the silence
gate skips the buffer iff `r` is strictly below the threshold, a buffer
whose RMS equals the threshold is not skipped, and for a non-negative
threshold the comparison is equivalent to comparing the mean of squares
with the squared threshold. -/
theorem silence_gate_strict (audio : List ℚ) (threshold : ℝ) (hne : audio ≠ []) :
    ∃ r : ℝ, rms audio = NpF.val r ∧ 0 ≤ r ∧
      (silenceGateSkips audio threshold ↔ r < threshold) ∧
      (r = threshold → ¬ silenceGateSkips audio threshold) ∧
      (0 ≤ threshold →
        (silenceGateSkips audio threshold ↔
          (((audio.map fun x => x * x).sum / audio.length : ℚ) : ℝ) < threshold ^ 2)) := by
  have hm : (0 : ℝ) ≤ (((audio.map fun x => x * x).sum / audio.length : ℚ) : ℝ) := by
    exact_mod_cast meanSq_nonneg audio
  have hiff : silenceGateSkips audio threshold ↔
      Real.sqrt (((audio.map fun x => x * x).sum / audio.length : ℚ) : ℝ) < threshold := by
    rw [silenceGateSkips, rms_nonempty_eq audio hne]
    exact Iff.rfl
  refine ⟨_, rms_nonempty_eq audio hne, Real.sqrt_nonneg _, hiff, ?_, ?_⟩
  · intro heq hskip
    exact absurd (hiff.mp hskip) (heq ▸ lt_irrefl _)
  · intro hth
    rcases eq_or_lt_of_le hth with h0 | h0
    · subst h0
      rw [hiff]
      constructor
      · intro h
        exact absurd h (not_lt.mpr (Real.sqrt_nonneg _))
      · intro h
        exact absurd h (not_lt.mpr (by simpa using hm))
    · rw [hiff, Real.sqrt_lt' h0]

/-- Witness for C6: the single-sample buffer `[1]` has RMS exactly 1, so at
threshold 1 it is not treated as silent. -/
theorem silence_gate_strict_witness : ¬ silenceGateSkips [1] 1 := by
  obtain ⟨r, hr, -, -, hb, -⟩ := silence_gate_strict [1] 1 (List.cons_ne_nil 1 [])
  have h1 : rms [1] = NpF.val 1 := by
    rw [rms_nonempty_eq [1] (List.cons_ne_nil 1 [])]
    norm_num [Real.sqrt_one]
  have hr1 : r = 1 := by
    have := hr.symm.trans h1
    injection this
  exact hb hr1

/-- C8 counterexample: on the empty buffer `_rms` does not signal any
error — `np.mean` of an empty array yields NaN, so `_rms` returns NaN and
the NaN comparison with the configured threshold 0.001 is false: the empty
buffer is simply not treated as silent. -/
theorem rms_empty_counterexample :
    rms [] = NpF.nan ∧ ¬ silenceGateSkips [] (1/1000) := by
  constructor
  · rfl
  · intro h
    exact h

/-- C8 (amended): the silence check is total with no error signalling at
all: on the empty buffer `_rms` evaluates to NaN (which compares false
against any threshold, so the buffer is not skipped), and on every
non-empty buffer it evaluates to a non-negative real value. -/
theorem rms_total_no_error (audio : List ℚ) (threshold : ℝ) :
    (audio = [] → rms audio = NpF.nan ∧ ¬ silenceGateSkips audio threshold) ∧
    (audio ≠ [] → ∃ x : ℝ, 0 ≤ x ∧ rms audio = NpF.val x) := by
  constructor
  · rintro rfl
    exact ⟨rfl, fun h => h⟩
  · intro hne
    exact ⟨_, Real.sqrt_nonneg _, rms_nonempty_eq audio hne⟩

/-- Witness for C8's amended statement at the empty buffer and at `[1]`. -/
theorem rms_total_no_error_witness :
    (rms [] = NpF.nan ∧ ¬ silenceGateSkips [] (1/1000)) ∧
    ∃ x : ℝ, 0 ≤ x ∧ rms [1] = NpF.val x :=
  ⟨(rms_total_no_error [] (1/1000)).1 rfl,
   (rms_total_no_error [1] (1/1000)).2 (List.cons_ne_nil 1 [])⟩

/-- C4 counterexample: the spec's reference ("neither alphanumeric nor
whitespace" becomes a space) turns the underscore into a space, but the
code's `\w` keeps it: at input `"a_b"` the code yields `"a_b"` while the
reference yields `"a b"`. -/
theorem normalize_spec_ref_counterexample :
    normalize_text "a_b".toList = "a_b".toList ∧
    normalizeSpecRef "a_b".toList = "a b".toList ∧
    normalize_text "a_b".toList ≠ normalizeSpecRef "a_b".toList := by
  refine ⟨by decide, by decide, by decide⟩

/-- C4 (amended): `normalize_text` equals, on every input, the reference
definition with "alphanumeric" widened to "word character (alphanumeric or
underscore)": case-fold, replace every character that is neither a word
character nor whitespace with a single space, collapse whitespace runs to
one space, and trim the ends. -/
theorem normalize_text_eq_amended_ref (s : List Char) :
    normalize_text s = normalizeSpecRefAmended s := by
  rw [normalize_text, normalizeSpecRefAmended]
  congr 2
  refine List.map_congr_left fun c _ => ?_
  by_cases ha : c.isAlphanum = true <;> by_cases hu : c = '_' <;>
    by_cases hs : isSpaceChar c = true <;>
      simp [punctToSpace, isWordChar, ha, hu, hs]

/-- C5: `normalize_text` is idempotent. -/
theorem normalize_text_idempotent (s : List Char) :
    normalize_text (normalize_text s) = normalize_text s := by
  have hmem := fun x hx => mem_normalize_text s x hx
  have hcf : casefoldStr (normalize_text s) = normalize_text s :=
    (List.map_congr_left fun a ha => (hmem a ha).2).trans (List.map_id' _)
  have hpunct : (normalize_text s).map punctToSpace = normalize_text s := by
    refine (List.map_congr_left fun a ha => ?_).trans (List.map_id' _)
    rcases (hmem a ha).1 with hw | rfl
    · rw [punctToSpace, if_pos (by simp [hw])]
    · rw [punctToSpace, if_pos (by decide)]
  have hsp : ∀ x ∈ normalize_text s, isSpaceChar x = true → x = ' ' := by
    intro x hx hxs
    rcases (hmem x hx).1 with hw | rfl
    · rw [space_not_word x hxs] at hw
      cases hw
    · rfl
  have hch : List.Chain' NoTwoSpaces (normalize_text s) :=
    chain'_stripStr _ (chain'_collapseSpaces _)
  have hcl : collapseSpaces (normalize_text s) = normalize_text s :=
    collapseSpaces_eq_self _ hsp hch
  have hst : stripStr (normalize_text s) = normalize_text s :=
    stripStr_eq_self _ (stripStr_head?_not_space _) (stripStr_getLast?_not_space _)
  calc normalize_text (normalize_text s)
      = stripStr (collapseSpaces ((casefoldStr (normalize_text s)).map punctToSpace)) := rfl
    _ = normalize_text s := by rw [hcf, hpunct, hcl, hst]

/-- C10: a keyword whose casefold contains a character that is neither a
word character nor whitespace can never match any text, because the
normalized text consists only of word characters and single spaces. -/
theorem punct_keyword_never_matches (text kw : List Char)
    (h : ∃ c ∈ casefoldStr kw, isWordChar c = false ∧ isSpaceChar c = false) :
    contains_keyword text [kw] = false := by
  obtain ⟨c, hc, hw, hs⟩ := h
  rw [← Bool.not_eq_true, contains_keyword_eq_true_iff]
  rintro ⟨kw2, hmem, -, hinf⟩
  rw [List.mem_singleton] at hmem
  subst hmem
  have hcn : c ∈ normalize_text text := hinf.subset hc
  rcases (mem_normalize_text text c hcn).1 with hcw | rfl
  · rw [hcw] at hw
    cases hw
  · rw [show isSpaceChar ' ' = true by decide] at hs
    cases hs

/-- Witness for C10: the keyword `"nugget!"` contains `'!'` and therefore
never matches, here at the text `"say nugget! now"`. -/
theorem punct_keyword_never_matches_witness :
    contains_keyword "say nugget! now".toList ["nugget!".toList] = false :=
  punct_keyword_never_matches _ _ ⟨'!', by decide, by decide, by decide⟩

end KeywordListener

